import Mathlib

/-!
Shallow embedding of the texture-feature core of `src/Code/pipeline.py`
(XV_Imaging): dense-grid construction from sparse point tables, the 3D
local-binary-pattern (LBP) encoder and histogrammer, the 3×3×3
patch-completeness filter and its diagnostics, and the static/temporal
extraction drivers.

Modelling conventions:
  * a NumPy float cell is `Option ℚ`: `none` stands for NaN ("undefined"),
    `some v` for a finite value.  Python float comparisons with NaN are
    false, which the `Option`-level comparison helpers reproduce.
  * a NumPy 3D array is a `Grid`: explicit dimensions plus a total
    valuation `ℕ → ℕ → ℕ → Option ℚ`; every grid built here values to
    `none` outside its bounds, mirroring that the array has no cells there.
  * Python `for` loops become folds over the same index ranges; the
    imperative writes become functional updates.
  * fallible NumPy operations (out-of-range fancy indexing raises
    `IndexError`) become `Except String`.
  * an elementwise NumPy division whose divisor is `0` produces a
    non-finite float (`0/0 = nan`); such entries are modelled as `none`.
-/

/-- A dense 3D array of optionally-defined rationals (`np.full(..., np.nan)`
plus point writes).  `val` is total; grids constructed by the pipeline are
`none` outside `nx × ny × nz`. -/
structure Grid where
  nx : ℕ
  ny : ℕ
  nz : ℕ
  val : ℕ → ℕ → ℕ → Option ℚ

/-- Python `num >= center` on floats: false when either side is NaN. -/
def optGe (num center : Option ℚ) : Bool :=
  match num, center with
  | some a, some b => decide (b ≤ a)
  | _, _ => false

/-- Python `a == b` on floats: false when either side is NaN (so
`nan == nan` is false). -/
def pyEq (a b : Option ℚ) : Bool :=
  match a, b with
  | some x, some y => decide (x = y)
  | _, _ => false

/-- `neighbours(arr, i, j, k)`: the 6 axis neighbours in the fixed order
[x−1, x+1, y−1, y+1, z−1, z+1]. -/
def neighbours (g : Grid) (i j k : ℕ) : List (Option ℚ) :=
  [g.val (i-1) j k, g.val (i+1) j k,
   g.val i (j-1) k, g.val i (j+1) k,
   g.val i j (k-1), g.val i j (k+1)]

/-- `bin_to_dec(arr, i, j, k, neighbour_list)`: one bit per neighbour
(`1` iff `num >= arr[i,j,k]`), joined most-significant-first and read as a
base-2 number. -/
def bin_to_dec (g : Grid) (i j k : ℕ) (neighbour_list : List (Option ℚ)) : ℕ :=
  let binary_result := neighbour_list.map (fun num => if optGe num (g.val i j k) then 1 else 0)
  binary_result.foldl (fun acc b => 2 * acc + b) 0

/-- The interior scan `for i in range(1, shape[0]-1): ...` as the list of
index triples it visits. -/
def interiorTriples (g : Grid) : List (ℕ × ℕ × ℕ) :=
  (List.range' 1 (g.nx - 2)).flatMap (fun i =>
    (List.range' 1 (g.ny - 2)).flatMap (fun j =>
      (List.range' 1 (g.nz - 2)).map (fun k => (i, j, k))))

/-- The all-or-nothing definedness test of `compute_LBP_3D`: the scan body
skips the voxel iff `math.isnan(grid[i,j,k]) or any(math.isnan(x) for x in
neighbour_list)`. -/
def validVoxel (g : Grid) (t : ℕ × ℕ × ℕ) : Bool :=
  (g.val t.1 t.2.1 t.2.2).isSome && (neighbours g t.1 t.2.1 t.2.2).all Option.isSome

/-- One iteration of the `compute_LBP_3D` scan body. -/
def lbpStep (g : Grid) (st : List ℕ × ℕ) (t : ℕ × ℕ × ℕ) : List ℕ × ℕ :=
  if validVoxel g t then
    let d := bin_to_dec g t.1 t.2.1 t.2.2 (neighbours g t.1 t.2.1 t.2.2)
    (st.1.set d (st.1.getD d 0 + 1), st.2 + 1)
  else st

/-- `compute_LBP_3D(grid)`: scan all interior voxels, skip voxels with an
undefined centre or neighbour, accumulate `histogram[64]` and the count of
contributing voxels. -/
def compute_LBP_3D (g : Grid) : List ℕ × ℕ :=
  (interiorTriples g).foldl (lbpStep g) (List.replicate 64 0, 0)

-- ------------------------------------------------------------------
-- Helper lemmas about the scan state

lemma lbpStep_length (g : Grid) (st : List ℕ × ℕ) (t : ℕ × ℕ × ℕ) :
    (lbpStep g st t).1.length = st.1.length := by
  unfold lbpStep
  split <;> simp

lemma foldl_lbpStep_length (g : Grid) (L : List (ℕ × ℕ × ℕ)) (st : List ℕ × ℕ) :
    (L.foldl (lbpStep g) st).1.length = st.1.length := by
  induction L generalizing st with
  | nil => rfl
  | cons t L ih => rw [List.foldl_cons, ih, lbpStep_length]

/-- Incrementing an in-range entry raises the list sum by one. -/
lemma sum_set_incr (l : List ℕ) (d : ℕ) (hd : d < l.length) :
    (l.set d (l.getD d 0 + 1)).sum = l.sum + 1 := by
  induction l generalizing d with
  | nil => simp at hd
  | cons a l ih =>
    cases d with
    | zero => simp [List.getD]; omega
    | succ d =>
      simp only [List.set_cons_succ, List.sum_cons, List.getD_cons_succ]
      rw [ih d (by simpa using hd)]
      omega

/-- A 6-bit MSB-first accumulation of 0/1 bits is below 64. -/
lemma bin_to_dec_lt (g : Grid) (i j k : ℕ) (ns : List (Option ℚ))
    (h : ns.length = 6) : bin_to_dec g i j k ns < 64 := by
  unfold bin_to_dec
  have key : ∀ (bs : List ℕ) (acc : ℕ), (∀ b ∈ bs, b ≤ 1) →
      bs.foldl (fun acc b => 2 * acc + b) acc < (acc + 1) * 2 ^ bs.length := by
    intro bs
    induction bs with
    | nil => intro acc _; simp
    | cons b bs ih =>
      intro acc hb
      rw [List.foldl_cons]
      have h1 : (2 * acc + b + 1) * 2 ^ bs.length ≤ (acc + 1) * 2 ^ (b :: bs).length := by
        have hb1 : b ≤ 1 := hb b (List.mem_cons_self b bs)
        have : 2 * acc + b + 1 ≤ 2 * (acc + 1) := by omega
        calc (2 * acc + b + 1) * 2 ^ bs.length
            ≤ 2 * (acc + 1) * 2 ^ bs.length := Nat.mul_le_mul_right _ this
          _ = (acc + 1) * 2 ^ (b :: bs).length := by
              rw [List.length_cons, pow_succ]; ring
      exact lt_of_lt_of_le (ih (2 * acc + b) (fun x hx => hb x (List.mem_cons_of_mem b hx))) h1
  have hlen : (ns.map (fun num => if optGe num (g.val i j k) then 1 else 0)).length = 6 := by
    simpa using h
  have hbits : ∀ b ∈ ns.map (fun num => if optGe num (g.val i j k) then 1 else 0), b ≤ 1 := by
    intro b hb
    rcases List.mem_map.1 hb with ⟨x, _, rfl⟩
    split <;> omega
  have := key (ns.map (fun num => if optGe num (g.val i j k) then 1 else 0)) 0 hbits
  rw [hlen] at this
  simpa using this

lemma neighbours_length (g : Grid) (i j k : ℕ) : (neighbours g i j k).length = 6 := rfl

lemma foldl_lbpStep_count (g : Grid) (L : List (ℕ × ℕ × ℕ)) (st : List ℕ × ℕ) :
    (L.foldl (lbpStep g) st).2 = st.2 + (L.filter (validVoxel g)).length := by
  induction L generalizing st with
  | nil => simp
  | cons t L ih =>
    rw [List.foldl_cons, ih]
    by_cases h : validVoxel g t
    · simp [lbpStep, h, List.filter_cons]
      omega
    · simp [lbpStep, h, List.filter_cons]

lemma foldl_lbpStep_sum (g : Grid) (L : List (ℕ × ℕ × ℕ)) (st : List ℕ × ℕ)
    (hlen : st.1.length = 64) :
    (L.foldl (lbpStep g) st).1.sum = st.1.sum + (L.filter (validVoxel g)).length := by
  induction L generalizing st with
  | nil => simp
  | cons t L ih =>
    rw [List.foldl_cons]
    by_cases h : validVoxel g t
    · have hd : bin_to_dec g t.1 t.2.1 t.2.2 (neighbours g t.1 t.2.1 t.2.2) < 64 :=
        bin_to_dec_lt g _ _ _ _ (neighbours_length g _ _ _)
      have hstep : (lbpStep g st t).1.length = 64 := by rw [lbpStep_length]; exact hlen
      rw [ih _ hstep]
      have : (lbpStep g st t).1.sum = st.1.sum + 1 := by
        simp only [lbpStep, h, if_pos]
        exact sum_set_incr st.1 _ (by rw [hlen]; exact hd)
      rw [this, List.filter_cons, if_pos (by simpa using h)]
      simp; omega
    · have : lbpStep g st t = st := by simp [lbpStep, h]
      rw [this, ih _ hlen, List.filter_cons, if_neg (by simpa using h)]

lemma getD_set_self (l : List ℕ) (d v : ℕ) (h : d < l.length) :
    (l.set d v).getD d 0 = v := by
  induction l generalizing d with
  | nil => simp at h
  | cons a l ih =>
    cases d with
    | zero => rfl
    | succ d => simpa using ih d (by simpa using h)

lemma getD_set_ne (l : List ℕ) (d e v : ℕ) (h : d ≠ e) :
    (l.set d v).getD e 0 = l.getD e 0 := by
  induction l generalizing d e with
  | nil => simp
  | cons a l ih =>
    cases d with
    | zero => cases e with
      | zero => exact absurd rfl h
      | succ e => rfl
    | succ d => cases e with
      | zero => rfl
      | succ e => simpa using ih d e (by omega)

/-- The LBP code of a voxel, exactly as the scan of `compute_LBP_3D`
computes it from `neighbours` and `bin_to_dec`. -/
def voxelCode (g : Grid) (t : ℕ × ℕ × ℕ) : ℕ :=
  bin_to_dec g t.1 t.2.1 t.2.2 (neighbours g t.1 t.2.1 t.2.2)

lemma foldl_lbpStep_getD (g : Grid) (L : List (ℕ × ℕ × ℕ)) (st : List ℕ × ℕ)
    (hlen : st.1.length = 64) (d : ℕ) :
    (L.foldl (lbpStep g) st).1.getD d 0
      = st.1.getD d 0
        + (L.filter (fun t => validVoxel g t && (voxelCode g t == d))).length := by
  induction L generalizing st with
  | nil => simp
  | cons t L ih =>
    rw [List.foldl_cons, ih _ (by rw [lbpStep_length]; exact hlen)]
    by_cases h : validVoxel g t
    · by_cases hd : voxelCode g t = d
      · have hstep : (lbpStep g st t).1.getD d 0 = st.1.getD d 0 + 1 := by
          simp only [lbpStep, h, if_pos]
          rw [show bin_to_dec g t.1 t.2.1 t.2.2 (neighbours g t.1 t.2.1 t.2.2)
                = voxelCode g t from rfl, hd]
          exact getD_set_self st.1 d _ (by
            rw [hlen]
            rw [← hd]
            exact bin_to_dec_lt g _ _ _ _ (neighbours_length g _ _ _))
        rw [hstep, List.filter_cons, if_pos (by simp [h, hd])]
        simp; omega
      · have hstep : (lbpStep g st t).1.getD d 0 = st.1.getD d 0 := by
          simp only [lbpStep, h, if_pos]
          exact getD_set_ne st.1 _ d _ hd
        rw [hstep, List.filter_cons, if_neg (by simp [hd])]
    · have hst : lbpStep g st t = st := by simp [lbpStep, h]
      rw [hst, List.filter_cons, if_neg (by simp [h])]

lemma getD_replicate_zero (n d : ℕ) : (List.replicate n (0 : ℕ)).getD d 0 = 0 := by
  induction n generalizing d with
  | zero => simp
  | succ n ih =>
    cases d with
    | zero => rfl
    | succ d => exact ih d

lemma mem_interiorTriples (g : Grid) (i j k : ℕ) :
    (i, j, k) ∈ interiorTriples g ↔
      (1 ≤ i ∧ i ≤ g.nx - 2 ∧ 1 ≤ j ∧ j ≤ g.ny - 2 ∧ 1 ≤ k ∧ k ≤ g.nz - 2) := by
  simp only [interiorTriples, List.mem_flatMap, List.mem_map, List.mem_range'_1]
  constructor
  · rintro ⟨i', ⟨hi1, hi2⟩, j', ⟨hj1, hj2⟩, k', ⟨hk1, hk2⟩, h⟩
    obtain ⟨rfl, rfl, rfl⟩ : i' = i ∧ j' = j ∧ k' = k := by
      simpa [Prod.ext_iff] using h
    omega
  · rintro ⟨hi1, hi2, hj1, hj2, hk1, hk2⟩
    exact ⟨i, ⟨hi1, by omega⟩, j, ⟨hj1, by omega⟩, k, ⟨hk1, by omega⟩, rfl⟩

-- ------------------------------------------------------------------
-- Claim theorems about the encoder and histogrammer

/-- C1: for an interior voxel whose centre and all 6 neighbours are
defined, `bin_to_dec` over the `neighbours` list is the 6-bit number whose
bits, most to least significant, come from the neighbours in the fixed
order [x−1, x+1, y−1, y+1, z−1, z+1], with bit 1 iff neighbour ≥ centre
(ties give 1). -/
theorem bin_to_dec_msb_first (g : Grid) (i j k : ℕ) (c n1 n2 n3 n4 n5 n6 : ℚ)
    (hc : g.val i j k = some c)
    (h1 : g.val (i-1) j k = some n1) (h2 : g.val (i+1) j k = some n2)
    (h3 : g.val i (j-1) k = some n3) (h4 : g.val i (j+1) k = some n4)
    (h5 : g.val i j (k-1) = some n5) (h6 : g.val i j (k+1) = some n6) :
    bin_to_dec g i j k (neighbours g i j k) =
      32 * (if c ≤ n1 then 1 else 0) + 16 * (if c ≤ n2 then 1 else 0)
      + 8 * (if c ≤ n3 then 1 else 0) + 4 * (if c ≤ n4 then 1 else 0)
      + 2 * (if c ≤ n5 then 1 else 0) + (if c ≤ n6 then 1 else 0) := by
  simp only [bin_to_dec, neighbours, hc, h1, h2, h3, h4, h5, h6, optGe,
    List.map_cons, List.map_nil, List.foldl_cons, List.foldl_nil,
    decide_eq_true_eq]
  split_ifs <;> decide

/-- Concrete grid of the spec scenario: centre 5 at (1,1,1), neighbours
3, 3, 7, 7, 3, 7 in the order [x−1, x+1, y−1, y+1, z−1, z+1]. -/
def scenarioGrid : Grid :=
  ⟨3, 3, 3, fun i j k =>
    match i, j, k with
    | 1, 1, 1 => some 5
    | 0, 1, 1 => some 3
    | 2, 1, 1 => some 3
    | 1, 0, 1 => some 7
    | 1, 2, 1 => some 7
    | 1, 1, 0 => some 3
    | 1, 1, 2 => some 7
    | _, _, _ => none⟩

/-- Constant grid: every cell holds 1 (the all-equal neighbourhood). -/
def constGrid : Grid := ⟨3, 3, 3, fun _ _ _ => some 1⟩

/-- Witness for C1: centre 5 with neighbours [3,3,7,7,3,7] yields code 13,
and an all-equal neighbourhood yields code 63. -/
theorem bin_to_dec_msb_first_witness :
    bin_to_dec scenarioGrid 1 1 1 (neighbours scenarioGrid 1 1 1) = 13
    ∧ bin_to_dec constGrid 1 1 1 (neighbours constGrid 1 1 1) = 63 := by
  constructor
  · rw [bin_to_dec_msb_first scenarioGrid 1 1 1 5 3 3 7 7 3 7 rfl rfl rfl rfl rfl rfl rfl]
    norm_num
  · rw [bin_to_dec_msb_first constGrid 1 1 1 1 1 1 1 1 1 1 rfl rfl rfl rfl rfl rfl rfl]
    norm_num

/-- C5: `compute_LBP_3D` returns a histogram of length exactly 64 whose
entries sum to the returned valid count, and every code it can increment
(the `bin_to_dec` value of a voxel over its 6-element `neighbours` list)
lies below 64. -/
theorem compute_LBP_3D_histogram_invariants (g : Grid) :
    (compute_LBP_3D g).1.length = 64
    ∧ (compute_LBP_3D g).1.sum = (compute_LBP_3D g).2
    ∧ ∀ i j k : ℕ, bin_to_dec g i j k (neighbours g i j k) < 64 := by
  refine ⟨?_, ?_, ?_⟩
  · rw [compute_LBP_3D, foldl_lbpStep_length]; simp
  · rw [compute_LBP_3D, foldl_lbpStep_sum g _ _ (by simp),
      foldl_lbpStep_count]
    simp
  · intro i j k
    exact bin_to_dec_lt g i j k _ (neighbours_length g i j k)

/-- C4: a voxel contributes to the histogram and to the valid count iff it
is an interior voxel (each index between 1 and dimension−2 inclusive) with
a defined centre and 6 defined neighbours: the count is the number of such
voxels, each histogram bin counts exactly the contributing voxels with
that code, the scanned triples are exactly the interior ones (index 0 and
the maximal index never occur), and the validity test is definedness of
the centre and of every neighbour. -/
theorem compute_LBP_3D_contribution (g : Grid) :
    (compute_LBP_3D g).2 = ((interiorTriples g).filter (validVoxel g)).length
    ∧ (∀ d : ℕ, (compute_LBP_3D g).1.getD d 0
        = ((interiorTriples g).filter
            (fun t => validVoxel g t && (voxelCode g t == d))).length)
    ∧ (∀ i j k : ℕ, (i, j, k) ∈ interiorTriples g ↔
        (1 ≤ i ∧ i ≤ g.nx - 2 ∧ 1 ≤ j ∧ j ≤ g.ny - 2 ∧ 1 ≤ k ∧ k ≤ g.nz - 2))
    ∧ (∀ i j k : ℕ, validVoxel g (i, j, k) = true ↔
        ((g.val i j k).isSome = true
          ∧ ∀ n ∈ neighbours g i j k, n.isSome = true)) := by
  refine ⟨?_, ?_, mem_interiorTriples g, ?_⟩
  · rw [compute_LBP_3D, foldl_lbpStep_count]; simp
  · intro d
    rw [compute_LBP_3D, foldl_lbpStep_getD g _ _ (by simp) d, getD_replicate_zero]
    simp
  · intro i j k
    simp [validVoxel, List.all_eq_true]

-- ------------------------------------------------------------------
-- Grid construction from point tables (`create_grid`)

/-- A row of a static point table: integer-truncated coordinates `X`, `Y`,
`Z` and the measurement `SV` (`none` = NaN). -/
structure Row where
  x : ℤ
  y : ℤ
  z : ℤ
  sv : Option ℚ
deriving DecidableEq

/-- NumPy integer indexing on an axis of length `dim`: an index in
`[0, dim)` addresses directly, an index in `[-dim, 0)` wraps to `dim + x`,
anything else raises `IndexError`. -/
def npIndex (dim : ℕ) (x : ℤ) : Except String ℕ :=
  if 0 ≤ x ∧ x < (dim : ℤ) then .ok x.toNat
  else if -(dim : ℤ) ≤ x ∧ x < 0 then .ok ((dim : ℤ) + x).toNat
  else .error "IndexError: index out of bounds"

/-- `grid[x, y, z] = value`. -/
def Grid.write (g : Grid) (i j k : ℕ) (v : ℚ) : Grid :=
  ⟨g.nx, g.ny, g.nz,
   fun a b c => if a = i ∧ b = j ∧ c = k then some v else g.val a b c⟩

/-- The row loop of `create_grid`: a row with NaN `SV` is skipped, every
other row is assigned at its coordinates (an out-of-range coordinate
raises, aborting the construction). -/
def create_grid_go (nx ny nz : ℕ) (g : Grid) : List Row → Except String Grid
  | [] => .ok g
  | r :: rs =>
    match r.sv with
    | none => create_grid_go nx ny nz g rs
    | some v =>
      match npIndex nx r.x with
      | .error e => .error e
      | .ok i =>
        match npIndex ny r.y with
        | .error e => .error e
        | .ok j =>
          match npIndex nz r.z with
          | .error e => .error e
          | .ok k => create_grid_go nx ny nz (g.write i j k v) rs

/-- `create_grid(df, grid_size)`: allocate an all-NaN grid of shape
`(max_x+1, max_y+1, max_z+1)` and write each row with a defined `SV` at
its integer coordinates. -/
def create_grid (df : List Row) (grid_size : ℤ × ℤ × ℤ) : Except String Grid :=
  let nx := (grid_size.1 + 1).toNat
  let ny := (grid_size.2.1 + 1).toNat
  let nz := (grid_size.2.2 + 1).toNat
  create_grid_go nx ny nz ⟨nx, ny, nz, fun _ _ _ => none⟩ df

/-- An index NumPy rejects on an axis of length `dim`. -/
def outOfRange (dim : ℕ) (x : ℤ) : Prop :=
  x < -(dim : ℤ) ∨ (dim : ℤ) ≤ x

instance (dim : ℕ) (x : ℤ) : Decidable (outOfRange dim x) := by
  unfold outOfRange; infer_instance

lemma npIndex_out_of_range (dim : ℕ) (x : ℤ) (h : outOfRange dim x) :
    npIndex dim x = .error "IndexError: index out of bounds" := by
  unfold outOfRange at h
  unfold npIndex
  split_ifs with h1 h2
  · exfalso; omega
  · exfalso; omega
  · rfl

lemma npIndex_in_range (dim : ℕ) (x : ℤ) (h0 : 0 ≤ x) (h1 : x < (dim : ℤ)) :
    npIndex dim x = .ok x.toNat := by
  unfold npIndex
  rw [if_pos ⟨h0, h1⟩]

lemma create_grid_go_oob (nx ny nz : ℕ) (df : List Row) (g : Grid)
    (h : ∃ r ∈ df, r.sv.isSome = true ∧
      (outOfRange nx r.x ∨ outOfRange ny r.y ∨ outOfRange nz r.z)) :
    ∃ e, create_grid_go nx ny nz g df = .error e := by
  induction df generalizing g with
  | nil => simp at h
  | cons r rs ih =>
    rcases h with ⟨r', hmem, hsv, hoob⟩
    rcases List.mem_cons.1 hmem with rfl | hmem'
    · obtain ⟨v, hv⟩ := Option.isSome_iff_exists.1 hsv
      simp only [create_grid_go, hv]
      rcases hoob with hx | hy | hz
      · rw [npIndex_out_of_range nx r'.x hx]
        exact ⟨_, rfl⟩
      · cases hix : npIndex nx r'.x with
        | error e => exact ⟨e, rfl⟩
        | ok i =>
          rw [npIndex_out_of_range ny r'.y hy]
          exact ⟨_, rfl⟩
      · cases hix : npIndex nx r'.x with
        | error e => exact ⟨e, rfl⟩
        | ok i =>
          cases hiy : npIndex ny r'.y with
          | error e => exact ⟨e, rfl⟩
          | ok j =>
            rw [npIndex_out_of_range nz r'.z hz]
            exact ⟨_, rfl⟩
    · cases hsv' : r.sv with
      | none =>
        simp only [create_grid_go, hsv']
        exact ih g ⟨r', hmem', hsv, hoob⟩
      | some v =>
        simp only [create_grid_go, hsv']
        cases hix : npIndex nx r.x with
        | error e => exact ⟨e, rfl⟩
        | ok i =>
          cases hiy : npIndex ny r.y with
          | error e => exact ⟨e, rfl⟩
          | ok j =>
            cases hiz : npIndex nz r.z with
            | error e => exact ⟨e, rfl⟩
            | ok k => exact ih _ ⟨r', hmem', hsv, hoob⟩

/-- A one-row table whose `X` coordinate (5) exceeds the bounds of a grid
of size (1,1,1) (shape 2×2×2). -/
def oobTable : List Row := [⟨5, 0, 0, some 1⟩]

/-- Counterexample to C6: a row whose integer coordinate falls outside the
grid bounds is not silently dropped — `create_grid` raises an index error
instead of returning a grid. -/
theorem create_grid_oob_not_silent :
    create_grid oobTable (1, 1, 1) = .error "IndexError: index out of bounds" := by
  rfl

/-- C6 (amended): a row with a defined `SV` whose coordinate lies outside
the index range NumPy accepts (outside `[-dim, dim)` for axis length
`dim = size+1`) makes `create_grid` raise an index error, aborting grid
construction, rather than being silently dropped.  (A negative coordinate
still inside `[-dim, -1]` does not raise: it wraps around to index
`dim + coordinate` and overwrites that cell.) -/
theorem create_grid_oob_raises (df : List Row) (sx sy sz : ℤ)
    (h : ∃ r ∈ df, r.sv.isSome = true ∧
      (outOfRange (sx + 1).toNat r.x ∨ outOfRange (sy + 1).toNat r.y
        ∨ outOfRange (sz + 1).toNat r.z)) :
    ∃ e, create_grid df (sx, sy, sz) = .error e :=
  create_grid_go_oob _ _ _ df _ h

/-- A table whose second row has a `Y` coordinate (−9) below the wrap-around
range of a grid of size (1,1,1). -/
def oobTable2 : List Row := [⟨0, 0, 0, some 1⟩, ⟨0, -9, 0, some 2⟩]

/-- Witness for the amended C6 at a concrete input. -/
theorem create_grid_oob_raises_witness :
    ∃ e, create_grid oobTable2 (1, 1, 1) = .error e :=
  create_grid_oob_raises oobTable2 1 1 1
    ⟨⟨0, -9, 0, some 2⟩, by decide, by decide, by decide⟩

/-- Does row `r` sit at integer cell (i,j,k)? -/
def coordMatch (i j k : ℕ) (r : Row) : Bool :=
  decide (r.x = (i : ℤ) ∧ r.y = (j : ℤ) ∧ r.z = (k : ℤ))

/-- The last row of `df` at cell (i,j,k) in row order (later duplicates
shadow earlier ones). -/
def lastMatch (df : List Row) (i j k : ℕ) : Option Row :=
  (df.filter (coordMatch i j k)).getLast?

lemma getLast?_filter_cons (p : Row → Bool) (r : Row) (rs : List Row) :
    ((r :: rs).filter p).getLast?
      = match (rs.filter p).getLast? with
        | some x => some x
        | none => if p r then some r else none := by
  rw [List.filter_cons]
  by_cases h : p r
  · rw [if_pos h]
    cases hl : rs.filter p with
    | nil => simp [h]
    | cons a l =>
      rw [List.getLast?_cons_cons]
      cases h2 : (a :: l).getLast? with
      | none => simp at h2
      | some x => rfl
  · rw [if_neg h]
    cases h2 : (rs.filter p).getLast? with
    | none => simp [h]
    | some x => rfl

lemma create_grid_go_val (nx ny nz : ℕ) (df : List Row) (g : Grid)
    (h : ∀ r ∈ df, r.sv.isSome = true ∧
      0 ≤ r.x ∧ r.x < (nx : ℤ) ∧ 0 ≤ r.y ∧ r.y < (ny : ℤ)
      ∧ 0 ≤ r.z ∧ r.z < (nz : ℤ)) :
    ∃ g', create_grid_go nx ny nz g df = .ok g'
      ∧ ∀ i j k : ℕ,
          g'.val i j k
            = match lastMatch df i j k with
              | some r => r.sv
              | none => g.val i j k := by
  induction df generalizing g with
  | nil =>
    refine ⟨g, rfl, ?_⟩
    intro i j k
    simp [lastMatch]
  | cons r rs ih =>
    obtain ⟨hsv, hx0, hx1, hy0, hy1, hz0, hz1⟩ := h r (List.mem_cons_self r rs)
    obtain ⟨v, hv⟩ := Option.isSome_iff_exists.1 hsv
    simp only [create_grid_go, hv]
    rw [npIndex_in_range nx r.x hx0 hx1, npIndex_in_range ny r.y hy0 hy1,
        npIndex_in_range nz r.z hz0 hz1]
    obtain ⟨g', hg', hval⟩ := ih (g.write r.x.toNat r.y.toNat r.z.toNat v)
      (fun r' hr' => h r' (List.mem_cons_of_mem r hr'))
    refine ⟨g', hg', ?_⟩
    intro i j k
    rw [hval i j k]
    unfold lastMatch
    rw [getLast?_filter_cons (coordMatch i j k) r rs]
    cases h2 : (rs.filter (coordMatch i j k)).getLast? with
    | some r' => rfl
    | none =>
      by_cases hc : coordMatch i j k r = true
      · have hco := of_decide_eq_true hc
        obtain ⟨hxi, hyj, hzk⟩ := hco
        have hxn : r.x.toNat = i := by rw [hxi]; exact Int.toNat_natCast i
        have hyn : r.y.toNat = j := by rw [hyj]; exact Int.toNat_natCast j
        have hzn : r.z.toNat = k := by rw [hzk]; exact Int.toNat_natCast k
        simp only [hc, if_true]
        simp [Grid.write, hxn, hyn, hzn, hv]
      · simp only [hc, if_false]
        have hne : ¬(i = r.x.toNat ∧ j = r.y.toNat ∧ k = r.z.toNat) := by
          intro ⟨hi, hj, hk⟩
          apply hc
          apply decide_eq_true
          refine ⟨?_, ?_, ?_⟩
          · rw [hi, Int.toNat_of_nonneg hx0]
          · rw [hj, Int.toNat_of_nonneg hy0]
          · rw [hk, Int.toNat_of_nonneg hz0]
        simp [Grid.write, hne]

/-- C9: for a point table whose rows all carry a defined value and integer
coordinates inside the grid bounds, building the grid succeeds, and
reading any cell back gives exactly the value of the last row written at
that coordinate (duplicates collapse to the last in row order), with
every unwritten cell undefined — so the defined cells are exactly the
table's (coordinate, value) pairs. -/
theorem create_grid_roundtrip (df : List Row) (sx sy sz : ℕ)
    (h : ∀ r ∈ df, r.sv.isSome = true ∧ 0 ≤ r.x ∧ r.x ≤ (sx : ℤ)
      ∧ 0 ≤ r.y ∧ r.y ≤ (sy : ℤ) ∧ 0 ≤ r.z ∧ r.z ≤ (sz : ℤ)) :
    ∃ g, create_grid df ((sx : ℤ), (sy : ℤ), (sz : ℤ)) = .ok g
      ∧ ∀ i j k : ℕ, g.val i j k = (lastMatch df i j k).bind Row.sv := by
  have h' : ∀ r ∈ df, r.sv.isSome = true ∧
      0 ≤ r.x ∧ r.x < (((sx : ℤ) + 1).toNat : ℤ)
      ∧ 0 ≤ r.y ∧ r.y < (((sy : ℤ) + 1).toNat : ℤ)
      ∧ 0 ≤ r.z ∧ r.z < (((sz : ℤ) + 1).toNat : ℤ) := by
    intro r hr
    obtain ⟨h1, h2, h3, h4, h5, h6, h7⟩ := h r hr
    refine ⟨h1, h2, ?_, h4, ?_, h6, ?_⟩ <;> omega
  obtain ⟨g, hg, hval⟩ := create_grid_go_val _ _ _ df _ h'
  refine ⟨g, hg, ?_⟩
  intro i j k
  rw [hval i j k]
  cases lastMatch df i j k <;> rfl

/-- A table with an in-bounds duplicate coordinate: rows at (0,0,0) with
values 2 then 5, and one row at (1,0,0) with value 3. -/
def rtTable : List Row := [⟨0, 0, 0, some 2⟩, ⟨1, 0, 0, some 3⟩, ⟨0, 0, 0, some 5⟩]

/-- Witness for C9 at a concrete in-bounds table with a duplicate. -/
theorem create_grid_roundtrip_witness :
    ∃ g, create_grid rtTable ((1 : ℤ), (1 : ℤ), (1 : ℤ)) = .ok g
      ∧ ∀ i j k : ℕ, g.val i j k = (lastMatch rtTable i j k).bind Row.sv :=
  create_grid_roundtrip rtTable 1 1 1 (by decide)

-- ------------------------------------------------------------------
-- Patch-completeness filter (`conv_3d_patch`) and its diagnostics

/-- The patch starts visited by `for i in range(shape[0]-2): ...`
(the scan bound is hard-coded for edge length 3). -/
def patchStarts (g : Grid) : List (ℕ × ℕ × ℕ) :=
  (List.range (g.nx - 2)).flatMap (fun i =>
    (List.range (g.ny - 2)).flatMap (fun j =>
      (List.range (g.nz - 2)).map (fun k => (i, j, k))))

/-- Is cell `c` inside the `scale`-cube starting at `s`? -/
def inPatch (scale : ℕ) (s c : ℕ × ℕ × ℕ) : Prop :=
  s.1 ≤ c.1 ∧ c.1 < s.1 + scale ∧ s.2.1 ≤ c.2.1 ∧ c.2.1 < s.2.1 + scale
    ∧ s.2.2 ≤ c.2.2 ∧ c.2.2 < s.2.2 + scale

instance (scale : ℕ) (s c : ℕ × ℕ × ℕ) : Decidable (inPatch scale s c) := by
  unfold inPatch; infer_instance

/-- `np.all(~np.isnan(patch))`: every cell of the `scale`-cube at `s` is
defined. -/
def patchFull (g : Grid) (scale : ℕ) (s : ℕ × ℕ × ℕ) : Bool :=
  ((List.range scale).flatMap (fun a =>
    (List.range scale).flatMap (fun b =>
      (List.range scale).map (fun c =>
        g.val (s.1 + a) (s.2.1 + b) (s.2.2 + c))))).all Option.isSome

/-- `new_grid[i:i+scale, j:j+scale, k:k+scale] = patch` (the patch values
come from the original grid, so every write to a cell writes that cell's
original value). -/
def writePatch (g : Grid) (scale : ℕ) (s : ℕ × ℕ × ℕ)
    (v : ℕ → ℕ → ℕ → Option ℚ) : ℕ → ℕ → ℕ → Option ℚ :=
  fun i j k => if inPatch scale s (i, j, k) then g.val i j k else v i j k

/-- `conv_3d_patch(grid, scale=3)`: start from an all-NaN grid of the same
shape and, for every patch start whose cube is fully defined, copy the
whole cube across.  (The scan bounds follow the source and are correct
for the default edge length 3.) -/
def conv_3d_patch (g : Grid) (scale : ℕ := 3) : Grid :=
  ⟨g.nx, g.ny, g.nz,
   (patchStarts g).foldl
     (fun v s => if patchFull g scale s then writePatch g scale s v else v)
     (fun _ _ _ => none)⟩

lemma foldl_writePatch_val (g : Grid) (scale : ℕ) (L : List (ℕ × ℕ × ℕ))
    (base : ℕ → ℕ → ℕ → Option ℚ) (i j k : ℕ) :
    (L.foldl (fun v s => if patchFull g scale s then writePatch g scale s v else v)
        base) i j k
      = if ∃ s ∈ L, patchFull g scale s = true ∧ inPatch scale s (i, j, k)
        then g.val i j k else base i j k := by
  induction L generalizing base with
  | nil => simp
  | cons s L ih =>
    rw [List.foldl_cons, ih]
    by_cases hex : ∃ t ∈ L, patchFull g scale t = true ∧ inPatch scale t (i, j, k)
    · rw [if_pos hex, if_pos]
      rcases hex with ⟨t, ht, hP⟩
      exact ⟨t, List.mem_cons_of_mem s ht, hP⟩
    · rw [if_neg hex]
      by_cases hs : patchFull g scale s = true
      · by_cases hin : inPatch scale s (i, j, k)
        · rw [if_pos (⟨s, List.mem_cons_self s L, hs, hin⟩ :
            ∃ t ∈ s :: L, patchFull g scale t = true ∧ inPatch scale t (i, j, k))]
          simp [hs, writePatch, hin]
        · have hne : ¬ ∃ t ∈ s :: L,
              patchFull g scale t = true ∧ inPatch scale t (i, j, k) := by
            rintro ⟨t, ht, hPf, hPin⟩
            rcases List.mem_cons.1 ht with rfl | ht'
            · exact hin hPin
            · exact hex ⟨t, ht', hPf, hPin⟩
          rw [if_neg hne]
          simp [hs, writePatch, hin]
      · have hne : ¬ ∃ t ∈ s :: L,
            patchFull g scale t = true ∧ inPatch scale t (i, j, k) := by
          rintro ⟨t, ht, hPf, hPin⟩
          rcases List.mem_cons.1 ht with rfl | ht'
          · exact hs hPf
          · exact hex ⟨t, ht', hPf, hPin⟩
        rw [if_neg hne]
        simp [hs]

/-- Cell-level description of the filter: a cell survives iff some fully
defined patch covers it, and then it keeps its original value. -/
lemma conv_3d_patch_val (g : Grid) (scale : ℕ) (i j k : ℕ) :
    (conv_3d_patch g scale).val i j k
      = if ∃ s ∈ patchStarts g, patchFull g scale s = true ∧ inPatch scale s (i, j, k)
        then g.val i j k else none :=
  foldl_writePatch_val g scale (patchStarts g) _ i j k

lemma patchFull_iff (g : Grid) (scale : ℕ) (s : ℕ × ℕ × ℕ) :
    patchFull g scale s = true ↔
      ∀ a b c : ℕ, a < scale → b < scale → c < scale →
        (g.val (s.1 + a) (s.2.1 + b) (s.2.2 + c)).isSome = true := by
  unfold patchFull
  rw [List.all_eq_true]
  constructor
  · intro h a b c ha hb hc
    exact h _ (by
      simp only [List.mem_flatMap, List.mem_map, List.mem_range]
      exact ⟨a, ha, b, hb, c, hc, rfl⟩)
  · intro h x hx
    simp only [List.mem_flatMap, List.mem_map, List.mem_range] at hx
    obtain ⟨a, ha, b, hb, c, hc, rfl⟩ := hx
    exact h a b c ha hb hc

lemma inPatch_offset (scale : ℕ) (s : ℕ × ℕ × ℕ) (a b c : ℕ)
    (ha : a < scale) (hb : b < scale) (hc : c < scale) :
    inPatch scale s (s.1 + a, s.2.1 + b, s.2.2 + c) := by
  unfold inPatch
  dsimp only
  omega

lemma patchFull_conv (g : Grid) (s : ℕ × ℕ × ℕ) (hs : s ∈ patchStarts g) :
    patchFull (conv_3d_patch g 3) 3 s = patchFull g 3 s := by
  cases hF : patchFull g 3 s with
  | true =>
    rw [patchFull_iff]
    intro a b c ha hb hc
    rw [conv_3d_patch_val, if_pos ⟨s, hs, hF, inPatch_offset 3 s a b c ha hb hc⟩]
    exact (patchFull_iff g 3 s).1 hF a b c ha hb hc
  | false =>
    cases hT : patchFull (conv_3d_patch g 3) 3 s with
    | false => rfl
    | true =>
      exfalso
      have hgood : patchFull g 3 s = true := by
        rw [patchFull_iff]
        intro a b c ha hb hc
        have hc' := (patchFull_iff _ 3 s).1 hT a b c ha hb hc
        rw [conv_3d_patch_val] at hc'
        by_cases hex : ∃ t ∈ patchStarts g,
            patchFull g 3 t = true ∧ inPatch 3 t (s.1 + a, s.2.1 + b, s.2.2 + c)
        · rw [if_pos hex] at hc'
          exact hc'
        · rw [if_neg hex] at hc'
          simp at hc'
      rw [hgood] at hF
      cases hF

/-- C7: applying the 3×3×3 patch filter twice gives exactly the grid of a
single application — same shape and the same (possibly undefined) value
at every cell. -/
theorem conv_3d_patch_idempotent (g : Grid) :
    (conv_3d_patch (conv_3d_patch g 3) 3).nx = (conv_3d_patch g 3).nx
    ∧ (conv_3d_patch (conv_3d_patch g 3) 3).ny = (conv_3d_patch g 3).ny
    ∧ (conv_3d_patch (conv_3d_patch g 3) 3).nz = (conv_3d_patch g 3).nz
    ∧ ∀ i j k : ℕ, (conv_3d_patch (conv_3d_patch g 3) 3).val i j k
        = (conv_3d_patch g 3).val i j k := by
  refine ⟨rfl, rfl, rfl, ?_⟩
  intro i j k
  rw [conv_3d_patch_val (conv_3d_patch g 3) 3 i j k]
  have hst : patchStarts (conv_3d_patch g 3) = patchStarts g := rfl
  rw [hst]
  by_cases hex : ∃ s ∈ patchStarts g, patchFull g 3 s = true ∧ inPatch 3 s (i, j, k)
  · have hex' : ∃ s ∈ patchStarts g,
        patchFull (conv_3d_patch g 3) 3 s = true ∧ inPatch 3 s (i, j, k) := by
      rcases hex with ⟨s, hs, hF, hin⟩
      exact ⟨s, hs, by rw [patchFull_conv g s hs]; exact hF, hin⟩
    rw [if_pos hex']
  · have hex' : ¬ ∃ s ∈ patchStarts g,
        patchFull (conv_3d_patch g 3) 3 s = true ∧ inPatch 3 s (i, j, k) := by
      rintro ⟨s, hs, hF, hin⟩
      exact hex ⟨s, hs, by rw [← patchFull_conv g s hs]; exact hF, hin⟩
    rw [if_neg hex', conv_3d_patch_val g 3 i j k, if_neg hex]

-- ------------------------------------------------------------------
-- Retention diagnostics (`remain_percent`, `conv_remain_points`)

/-- All index triples of a grid's array. -/
def allCells (g : Grid) : List (ℕ × ℕ × ℕ) :=
  (List.range g.nx).flatMap (fun i =>
    (List.range g.ny).flatMap (fun j =>
      (List.range g.nz).map (fun k => (i, j, k))))

/-- `grid.size - np.sum(np.isnan(grid))`: the number of defined cells. -/
def definedCount (g : Grid) : ℕ :=
  (allCells g).countP (fun c => (g.val c.1 c.2.1 c.2.2).isSome)

/-- `remain_percent(grid, new_grid)`: both defined-cell counts and the
retained fraction.  (The division is exact rational division; the source
divides two NumPy integers.) -/
def remain_percent (g n : Grid) : ℕ × ℕ × ℚ :=
  (definedCount g, definedCount n, (definedCount n : ℚ) / (definedCount g : ℚ))

lemma conv_3d_patch_val_some (g : Grid) (i j k : ℕ) (v : ℚ)
    (hv : (conv_3d_patch g 3).val i j k = some v) : g.val i j k = some v := by
  rw [conv_3d_patch_val] at hv
  by_cases hex : ∃ s ∈ patchStarts g, patchFull g 3 s = true ∧ inPatch 3 s (i, j, k)
  · rw [if_pos hex] at hv
    exact hv
  · rw [if_neg hex] at hv
    cases hv

/-- C10: the patch filter only removes points: a defined output cell is a
defined input cell with the identical value, and consequently the
retained fraction reported by `remain_percent` is at most 1 whenever the
input has a defined cell. -/
theorem conv_3d_patch_subset (g : Grid) :
    (∀ i j k : ℕ, ∀ v : ℚ,
        (conv_3d_patch g 3).val i j k = some v → g.val i j k = some v)
    ∧ (0 < definedCount g → (remain_percent g (conv_3d_patch g 3)).2.2 ≤ 1) := by
  constructor
  · exact fun i j k v hv => conv_3d_patch_val_some g i j k v hv
  · intro hpos
    have hle : definedCount (conv_3d_patch g 3) ≤ definedCount g := by
      have hcells : allCells (conv_3d_patch g 3) = allCells g := rfl
      unfold definedCount
      rw [hcells]
      apply List.countP_mono_left
      intro c _ hc
      obtain ⟨v, hv⟩ := Option.isSome_iff_exists.1 hc
      rw [conv_3d_patch_val_some g c.1 c.2.1 c.2.2 v hv]
      rfl
    show (definedCount (conv_3d_patch g 3) : ℚ) / (definedCount g : ℚ) ≤ 1
    rw [div_le_one (by exact_mod_cast hpos)]
    exact_mod_cast hle

/-- Witness for C10: the all-ones 3×3×3 grid keeps its cells, and its
retained fraction is at most 1. -/
theorem conv_3d_patch_subset_witness :
    constGrid.val 0 0 0 = some 1
    ∧ (remain_percent constGrid (conv_3d_patch constGrid 3)).2.2 ≤ 1 :=
  ⟨(conv_3d_patch_subset constGrid).1 0 0 0 1 (by decide),
   (conv_3d_patch_subset constGrid).2 (by decide)⟩

/-- `conv_remain_points(grid, new_grid)`: start all-NaN; for every cell,
`pass` when `grid[i,j,k] == new_grid[i,j,k]` (a float comparison, false
when either side is NaN), otherwise write the original value there.  The
loop body touches each cell exactly once, so it is rendered per cell. -/
def conv_remain_points (g n : Grid) : Grid :=
  ⟨g.nx, g.ny, g.nz,
   fun i j k =>
     if i < g.nx ∧ j < g.ny ∧ k < g.nz then
       if pyEq (g.val i j k) (n.val i j k) then none else g.val i j k
     else none⟩

/-- The spec's description of the retention diff: a cell is undefined
whenever the original and filtered values are equal — two undefined cells
counting as equal — and otherwise holds the original value. -/
def remainPointsSpec (g n : Grid) (i j k : ℕ) : Option ℚ :=
  if g.val i j k = n.val i j k then none else g.val i j k

/-- C8: `conv_remain_points` computes exactly the spec's retention diff at
every cell of the (equally shaped) grids: undefined where original and
filtered agree (undefined-vs-undefined included), the original value
elsewhere; in particular a cell undefined in both inputs stays undefined. -/
theorem conv_remain_points_correct (g n : Grid)
    (_hx : g.nx = n.nx) (_hy : g.ny = n.ny) (_hz : g.nz = n.nz) :
    ∀ i j k : ℕ, i < g.nx → j < g.ny → k < g.nz →
      (conv_remain_points g n).val i j k = remainPointsSpec g n i j k := by
  intro i j k hi hj hk
  show (if i < g.nx ∧ j < g.ny ∧ k < g.nz then _ else _) = _
  rw [if_pos ⟨hi, hj, hk⟩]
  unfold remainPointsSpec
  cases hg : g.val i j k with
  | none =>
    cases hn : n.val i j k with
    | none => simp [pyEq]
    | some w => simp [pyEq]
  | some v =>
    cases hn : n.val i j k with
    | none => simp [pyEq]
    | some w =>
      by_cases hvw : v = w
      · simp [pyEq, hvw]
      · simp [pyEq, hvw]

/-- A 2×1×1 grid holding 1 and 2. -/
def pairGrid : Grid :=
  ⟨2, 1, 1, fun i j k => if i = 0 ∧ j = 0 ∧ k = 0 then some 1
    else if i = 1 ∧ j = 0 ∧ k = 0 then some 2 else none⟩

/-- A 2×1×1 grid holding only the 1. -/
def pairGridFiltered : Grid :=
  ⟨2, 1, 1, fun i j k => if i = 0 ∧ j = 0 ∧ k = 0 then some 1 else none⟩

/-- Witness for C8 at the cell removed by filtering. -/
theorem conv_remain_points_correct_witness :
    (conv_remain_points pairGrid pairGridFiltered).val 1 0 0
      = remainPointsSpec pairGrid pairGridFiltered 1 0 0 :=
  conv_remain_points_correct pairGrid pairGridFiltered rfl rfl rfl 1 0 0
    (by decide) (by decide) (by decide)

-- ------------------------------------------------------------------
-- Static extractor (`LBP_3D`)

/-- One elementwise entry of `np.array(hist)/count`: NumPy true-divides
integers; a zero divisor yields a non-finite float (`0/0` is `nan`),
modelled as `none`. -/
def pyDiv (h count : ℕ) : Option ℚ :=
  if count = 0 then none else some ((h : ℚ) / count)

/-- `np.array(hist)/count` over the whole histogram. -/
def normalizeHist (hc : List ℕ × ℕ) : List (Option ℚ) :=
  hc.1.map (fun h => pyDiv h hc.2)

/-- The `LBP_3D.__init__` grid sizing: per axis, the running maximum
(started at −1) of the absolute coordinates over all samples' rows
(`int(math.ceil(...))` is the identity on these integers; an empty table,
on which Python's `max` would raise, leaves the running value unchanged). -/
def lbp3d_gridSize (samples : List (List Row × ℤ)) : ℤ × ℤ × ℤ :=
  samples.foldl
    (fun sz s =>
      (s.1.foldl (fun m r => max m |r.x|) sz.1,
       s.1.foldl (fun m r => max m |r.y|) sz.2.1,
       s.1.foldl (fun m r => max m |r.z|) sz.2.2))
    (-1, -1, -1)

/-- `LBP_3D.extract()`: for each sample in order, build its grid at the
shared size, compute the LBP histogram and count, divide the histogram by
the count, and append the row with its label. -/
def LBP_3D_extract (samples : List (List Row × ℤ)) :
    Except String (List (List (Option ℚ) × ℤ)) :=
  samples.mapM (fun s => do
    let g ← create_grid s.1 (lbp3d_gridSize samples)
    pure (normalizeHist (compute_LBP_3D g), s.2))

/-- A sample whose 1×1×1 grid has no interior voxels: valid count 0. -/
def zeroSample : List Row × ℤ := ([⟨0, 0, 0, some 1⟩], 7)

/-- C2 evidence (code bug): on a sample whose grid yields valid count 0,
`LBP_3D.extract` raises no "no valid voxels" error — it divides the
histogram by 0 and returns a feature row whose 64 entries are all NaN. -/
theorem lbp3d_extract_zero_count_silent_nan :
    (∃ g, create_grid zeroSample.1 (lbp3d_gridSize [zeroSample]) = .ok g
        ∧ (compute_LBP_3D g).2 = 0)
    ∧ LBP_3D_extract [zeroSample] = .ok [(List.replicate 64 (none : Option ℚ), 7)] := by
  constructor
  · exact ⟨_, rfl, rfl⟩
  · rfl

-- ------------------------------------------------------------------
-- Temporal extractor (`LBP_3DT`) and its non-uniform grid builder

/-- A row of a temporal point table: coordinates, measurement and frame
index. -/
structure TRow where
  x : ℤ
  y : ℤ
  z : ℤ
  sv : Option ℚ
  frame : ℕ
deriving DecidableEq

/-- Insert into a sorted list (ascending). -/
def insertSorted (x : ℤ) : List ℤ → List ℤ
  | [] => [x]
  | y :: ys => if x ≤ y then x :: y :: ys else y :: insertSorted x ys

/-- `sorted(column.unique())`: the distinct values in ascending order. -/
def sortedUnique (l : List ℤ) : List ℤ :=
  l.dedup.foldr insertSorted []

/-- `create_grid_new(df)`: axis index maps are the sorted distinct `X`,
`Y` and `Z` values of the table; a cell holds the `SV` of the first row
matching its (x, y, z) triple (`df[m]['SV'].values[0]`), else NaN. -/
def create_grid_new (df : List TRow) : Grid :=
  let xs := sortedUnique (df.map (·.x))
  let ys := sortedUnique (df.map (·.y))
  let zs := sortedUnique (df.map (·.z))
  ⟨xs.length, ys.length, zs.length,
   fun i j k =>
     match xs[i]?, ys[j]?, zs[k]? with
     | some x, some y, some z =>
       ((df.filter (fun r => decide (r.x = x ∧ r.y = y ∧ r.z = z))).head?).bind TRow.sv
     | _, _, _ => none⟩

/-- `df[df['Frame'] == i]`. -/
def frameTable (df : List TRow) (i : ℕ) : List TRow :=
  df.filter (fun r => decide (r.frame = i))

/-- `LBP_3DT.extract()`: for each sample in order, for each frame index
0..13 in order, build the frame-local grid, compute and normalize its
histogram, and collect the 14 normalized histograms side by side (the
64×14 feature block is represented by its list of columns in frame
order); the (block, label) pairs are appended in sample order. -/
def LBP_3DT_extract (samples : List (List TRow × ℤ)) :
    List (List (List (Option ℚ)) × ℤ) :=
  samples.foldl
    (fun features s =>
      features ++
        [((List.range 14).foldl
            (fun feat i =>
              feat ++ [normalizeHist (compute_LBP_3D (create_grid_new (frameTable s.1 i)))])
            [],
          s.2)])
    []

lemma foldl_append_singleton {α β : Type} (f : α → β) (l : List α) (acc : List β) :
    l.foldl (fun acc x => acc ++ [f x]) acc = acc ++ l.map f := by
  induction l generalizing acc with
  | nil => simp
  | cons x l ih => simp [ih]

/-- C3: the temporal extractor is exactly the orderly map over samples of
the orderly map over frame indices 0..13 of the normalized histogram of
the frame-local grid, labelled per sample: samples are processed in input
order, frames in index order, the 14 normalized 64-length histograms are
collected side by side into one block per sample, and one (block, label)
pair is produced per sample in input order. -/
theorem LBP_3DT_extract_spec (samples : List (List TRow × ℤ)) :
    LBP_3DT_extract samples
      = samples.map (fun s =>
          ((List.range 14).map
            (fun i => normalizeHist (compute_LBP_3D (create_grid_new (frameTable s.1 i)))),
           s.2)) := by
  unfold LBP_3DT_extract
  simp only [foldl_append_singleton, List.nil_append]

